import Mathlib

/-!
Verification of the flux-lsp language server (Rust) against its
natural-language specification.

Shallow embedding conventions:
* Document text is modelled as `List Char`; the LSP positions in this
  code base are code-point based (the spec notes that no UTF-16
  conversion is performed), so byte offsets are identified with
  char-list indices.
* `line_col::LineColLookup::get(i)` (an external crate used by
  `src/server.rs`) returns the 1-based (line, column) of offset `i`,
  obtained by scanning the text; it is embedded as `lineColGet`.
* The document store `Arc<Mutex<HashMap<Url, String>>>` is modelled as
  an association list with `HashMap`-style insert/remove/get; lock
  acquisition always succeeds in the model (lock poisoning is a
  process-level failure outside the scope of the embedded logic).
* Request handlers are modelled in state-passing style
  `Store → args → Store × result`, making the effect of every handler
  on the store explicit; the Rust handlers mutate the store only via
  `insert`/`remove` calls, which the model reproduces.
* External collaborators (the flux parser/analyzer, the flux formatter,
  the host `get_buckets` callback, the stdlib signature catalog) are
  passed as explicit function arguments.
-/

/-- LSP position (0-based line and character), `lsp::Position`. -/
structure Position where
  line : Nat
  character : Nat
  deriving DecidableEq, Repr

/-- LSP range, `lsp::Range`. The source field `end` is a Lean keyword and
is rendered `endPos`. -/
structure Range where
  start : Position
  endPos : Position
  deriving DecidableEq, Repr

/-- `lsp::Location`: a URI plus a range. -/
structure Location where
  uri : String
  range : Range
  deriving DecidableEq, Repr

/-- Step of the line/column scan: a newline moves to the start of the
next line, any other char advances the column. -/
def lcStep (p : Nat × Nat) (c : Char) : Nat × Nat :=
  if c = '\n' then (p.1 + 1, 1) else (p.1, p.2 + 1)

/-- Model of `line_col::LineColLookup::get`: the 1-based (line, column)
of offset `i` in `s`, computed by scanning the first `i` characters
starting from (1, 1). -/
def lineColGet (s : List Char) (i : Nat) : Nat × Nat :=
  (s.take i).foldl lcStep (1, 1)

/-- The scan target for an LSP position: the source compares the lookup
result against `(line + 1, character + 1)`. -/
def posTarget (p : Position) : Nat × Nat :=
  (p.line + 1, p.character + 1)

/-- The index-finding loop of `replace_string_in_range`
(src/server.rs:51-66): scan offsets upward; record the offset where the
start position occurs, record offset + 1 where the end position occurs
(the range end is inclusive) and stop there. `fuel` counts the
iterations left, so the loop visits `i, i+1, …, i+fuel-1`. -/
def string_range_go (s : List Char) (r : Range) :
    Nat → Nat → Nat × Nat → Nat × Nat
  | _, 0, acc => acc
  | i, fuel + 1, acc =>
    let lc := lineColGet s i
    let acc' := if lc = posTarget r.start then (i, acc.2) else acc
    if lc = posTarget r.endPos then (acc'.1, i + 1)
    else string_range_go s r (i + 1) fuel acc'

/-- The `string_range` pair computed by `replace_string_in_range` before
the replacement is applied: the loop runs over all offsets
`0 ≤ i < s.length` with initial accumulator `(0, 0)`. -/
def string_range (s : List Char) (r : Range) : Nat × Nat :=
  string_range_go s r 0 s.length (0, 0)

/-- `replace_string_in_range` (src/server.rs:46-73): find the byte range
of the LSP range and splice in the new text; if the computed end is
below the computed start, log and return the contents unchanged. -/
def replace_string_in_range (contents : List Char) (range : Range)
    (new : List Char) : List Char :=
  let sr := string_range contents range
  if sr.2 < sr.1 then contents
  else contents.take sr.1 ++ new ++ contents.drop sr.2

/-- The document store: per-URI text, `HashMap<lsp::Url, String>`
modelled as an association list with distinct keys maintained by the
operations. -/
def Store : Type := List (String × List Char)

instance : DecidableEq Store := by
  unfold Store; infer_instance

/-- `HashMap::get`. -/
def storeGet : Store → String → Option (List Char)
  | [], _ => none
  | (k, v) :: rest, u => if k = u then some v else storeGet rest u

/-- `HashMap::insert`: replace the value of an existing key, else add the
entry. -/
def storeInsert : Store → String → List Char → Store
  | [], u, t => [(u, t)]
  | (k, v) :: rest, u, t =>
    if k = u then (u, t) :: rest else (k, v) :: storeInsert rest u t

/-- `HashMap::remove` (only the key's entry goes away). -/
def storeRemove : Store → String → Store
  | [], _ => []
  | (k, v) :: rest, u =>
    if k = u then rest else (k, v) :: storeRemove rest u

/-- One element of `content_changes`:
`lsp::TextDocumentContentChangeEvent` (the unused `range_length` field is
dropped). -/
structure ChangeEvent where
  range : Option Range
  text : List Char
  deriving DecidableEq, Repr

/-- `LspServer::did_open` (src/server.rs:330-361): insert iff the key is
vacant; a duplicate open is logged and ignored. -/
def did_open (store : Store) (uri : String) (text : List Char) : Store :=
  match storeGet store uri with
  | none => storeInsert store uri text
  | some _ => store

/-- The body of the `for change in params.content_changes` loop of
`did_change`: a ranged event goes through `replace_string_in_range`, an
event without range replaces the whole text. -/
def apply_change (acc : List Char) (ev : ChangeEvent) : List Char :=
  match ev.range with
  | some r => replace_string_in_range acc r ev.text
  | none => ev.text

/-- `LspServer::did_change` (src/server.rs:362-400): unknown URI is
logged and dropped; otherwise the events are applied in order (full
replacement when no range, range replacement otherwise) and the result
is stored. -/
def did_change (store : Store) (uri : String) (changes : List ChangeEvent) :
    Store :=
  match storeGet store uri with
  | none => store
  | some contents =>
    storeInsert store uri (changes.foldl apply_change contents)

/-- `LspServer::did_save` (src/server.rs:401-426): replace the text iff
the params carry a text and the URI is known. -/
def did_save (store : Store) (uri : String) (text : Option (List Char)) :
    Store :=
  match text with
  | none => store
  | some t =>
    if (storeGet store uri).isSome then storeInsert store uri t else store

/-- `LspServer::did_close` (src/server.rs:427-453): remove the entry; a
missing key is logged, not an error. -/
def did_close (store : Store) (uri : String) : Store :=
  storeRemove store uri

/-- Convenience: text literals as char lists. -/
def str (s : String) : List Char := s.data

/-! ### Errors and formatting -/

/-- JSON-RPC error kinds produced by the query handlers. -/
inductive LspError where
  | invalidParams (msg : String)
  | internalError (msg : String)
  deriving DecidableEq, Repr

/-- `file_not_opened` (src/server.rs:1047-1052): the invalid-params error
returned for query requests on unknown URIs. -/
def file_not_opened (key : String) : LspError :=
  .invalidParams ("file not opened: " ++ key)

/-- The three formatting options `LspServer::formatting` inspects. -/
structure FormattingOptions where
  trim_trailing_whitespace : Option Bool
  insert_final_newline : Option Bool
  trim_final_newlines : Option Bool
  deriving DecidableEq, Repr

/-- A text edit over document text (`lsp::TextEdit` with the new text in
the document-text model). -/
structure DocEdit where
  range : Range
  new_text : List Char
  deriving DecidableEq, Repr

/-- `LspServer::formatting` (src/server.rs:533-618), state-passing. The
external `flux::formatter::format` is the `format` argument. The trim
options are only logged; `insert_final_newline` appends a newline when
the formatted text does not already end in one; the single edit covers
from (0,0) to the 1-based line/column of offset `len(contents)` of the
original text, each component minus one. -/
def formatting (format : List Char → Except String (List Char))
    (store : Store) (uri : String) (opts : FormattingOptions) :
    Store × Except LspError (Option (List DocEdit)) :=
  (store,
    match storeGet store uri with
    | none => .error (file_not_opened uri)
    | some contents =>
      match format contents with
      | .error err =>
        .error (.internalError ("Error formatting document: " ++ err))
      | .ok f0 =>
        let formatted :=
          match opts.insert_final_newline with
          | some true =>
            if (f0.getLast?.getD ' ') ≠ '\n' then f0 ++ ['\n'] else f0
          | _ => f0
        let e := lineColGet contents contents.length
        .ok (some [⟨⟨⟨0, 0⟩, ⟨e.1 - 1, e.2 - 1⟩⟩, formatted⟩]))

/-- The position addressed by the claim's words for C3: the 0-based
(line, character) coordinates of the last character of a (non-empty)
text, i.e. of offset `len(T) - 1`. Written from the spec sentence, to be
compared against what `formatting` produces. -/
def claim_last_char_position (T : List Char) : Position :=
  ⟨(lineColGet T (T.length - 1)).1 - 1, (lineColGet T (T.length - 1)).2 - 1⟩

/-! ### Stdlib completables (src/stdlib/mod.rs) -/

/-- `InsertTextFormat` (protocol responses). -/
inductive InsertTextFormat where
  | plainText
  | snippet
  deriving DecidableEq, Repr

/-- The completion item kinds this code base emits. -/
inductive CompletionItemKind where
  | text
  | function
  | variableKind
  | moduleKind
  deriving DecidableEq, Repr

/-- The completion item record (protocol responses); fields as in
`crate::protocol::responses::CompletionItem`. -/
structure CompletionItem where
  deprecated : Bool
  commit_characters : Option (List String)
  detail : Option String
  label : String
  additional_text_edits : Option (List DocEdit)
  filter_text : Option String
  insert_text : Option String
  documentation : Option String
  sort_text : Option String
  preselect : Option Bool
  insert_text_format : InsertTextFormat
  text_edit : Option DocEdit
  kind : Option CompletionItemKind
  deriving DecidableEq, Repr

/-- `contains` (src/stdlib/mod.rs:16-18). -/
def contains (l : List String) (m : String) : Bool :=
  (l.find? (fun x => x == m)).isSome

/-- Value-kind tags of variable completables. -/
inductive VarType where
  | int
  | string
  | array
  | float
  | bool
  | bytes
  | duration
  | regexp
  | uint
  | time
  deriving DecidableEq, Repr

/-- `VarResult` (src/stdlib/mod.rs:43-49). -/
structure VarResult where
  name : String
  var_type : VarType
  package : String
  package_name : Option String
  deriving DecidableEq, Repr

/-- `VarResult::matches` (src/stdlib/mod.rs:94-109): builtins match any
context not ending in `.`; otherwise the package must be imported and a
dotted context must name the package short-name. -/
def VarResult.matches (self : VarResult) (text : String)
    (imports : List String) : Bool :=
  if self.package == "builtin" && !(text.endsWith ".") then true
  else if !(contains imports self.package) then false
  else if text.endsWith "." then
    some (text.dropRight 1) == self.package_name
  else false

/-- `FunctionResult` (src/stdlib/mod.rs:155-163). -/
structure FunctionResult where
  name : String
  package : String
  package_name : Option String
  required_args : List String
  optional_args : List String
  signature : String
  deriving DecidableEq, Repr

/-- `FunctionResult::matches` (src/stdlib/mod.rs:254-269); the same logic
as `VarResult::matches`. -/
def FunctionResult.matches (self : FunctionResult) (text : String)
    (imports : List String) : Bool :=
  if self.package == "builtin" && !(text.endsWith ".") then true
  else if !(contains imports self.package) then false
  else if text.endsWith "." then
    some (text.dropRight 1) == self.package_name
  else false

/-- `get_builtins` (src/stdlib/mod.rs:575-653) constructs every builtin
variable completable with package `"builtin"` and no package name. -/
def builtin_var (name : String) (vt : VarType) : VarResult :=
  ⟨name, vt, "builtin", none⟩

/-- `get_builtins` constructs every builtin function completable with
package `"builtin"` and no package name. -/
def builtin_function (name : String) (required_args optional_args :
    List String) (signature : String) : FunctionResult :=
  ⟨name, "builtin", none, required_args, optional_args, signature⟩

/-- `default_arg_insert_text` (src/stdlib/mod.rs:165-167):
`"{arg}: ${index+1}"`. -/
def default_arg_insert_text (arg : String) (index : Nat) : String :=
  arg ++ ": $" ++ toString (index + 1)

/-- `get_bucket_insert_text` (src/stdlib/mod.rs:169-186): when the host
callback succeeds with a non-empty bucket list, build the choice text
`"${index+1|b1,…|}"` and splice it into the `"{arg}: ${i}"` template
(note: the template carries its own `$`, so the result contains `$$`);
otherwise fall back to the default. The `get_buckets` callback result is
the `buckets` argument. -/
def get_bucket_insert_text (arg : String) (index : Nat)
    (buckets : Except String (List String)) : String :=
  match buckets with
  | .ok bs =>
    if !bs.isEmpty then
      let list := String.intercalate "," bs
      let i := "$" ++ "\x7b" ++ toString (index + 1) ++ "|" ++ list ++
        "|" ++ "\x7d"
      arg ++ ": $" ++ i
    else default_arg_insert_text arg index
  | .error _ => default_arg_insert_text arg index

/-- `arg_insert_text` (src/stdlib/mod.rs:188-197). -/
def arg_insert_text (arg : String) (index : Nat)
    (buckets : Except String (List String)) : String :=
  if arg == "bucket" then get_bucket_insert_text arg index buckets
  else default_arg_insert_text arg index

/-- The `for (index, arg) in required_args.iter().enumerate()` loop of
`FunctionResult::insert_text`: append each argument's insert text,
followed by `", "` except after the final argument (`total` is the full
argument count). -/
def required_args_text (buckets : Except String (List String))
    (total : Nat) : List String → Nat → String
  | [], _ => ""
  | arg :: rest, index =>
    arg_insert_text arg index buckets ++
    (if index ≠ total - 1 then ", " else "") ++
    required_args_text buckets total rest (index + 1)

/-- `FunctionResult::insert_text` (src/stdlib/mod.rs:199-223):
`name(…)$0` with one numbered tab stop per required argument, a single
`$1` slot when there are no required but some optional arguments, and an
empty argument list otherwise. -/
def FunctionResult.insert_text (self : FunctionResult)
    (buckets : Except String (List String)) : String :=
  self.name ++ "(" ++
  required_args_text buckets self.required_args.length
    self.required_args 0 ++
  (if self.required_args.isEmpty && !self.optional_args.isEmpty
    then "$1" else "") ++
  ")$0"

/-! ### Semantic node model

The flux semantic tree and the visitors over it
(`crate::visitors::semantic`) are not under src/; the tree shape and the
visitor behaviours are modelled from the spec (§3 Semantic Package, §4.3
Tree Walk Framework), keeping exactly the node attributes the handlers
in src/ inspect. Node locations are stored as the LSP (0-based) ranges
that `convert::node_to_location` (also not under src/) produces. -/

/-- The callee shapes `signature_help` distinguishes: a member access
`object.property` over an identifier, a bare identifier, or anything
else. -/
inductive CalleeKind where
  | memberIdent (object property : String)
  | identCallee (name : String)
  | otherCallee
  deriving DecidableEq, Repr

/-- The semantic node kinds inspected by the handlers in src/, with the
attributes each handler reads. -/
inductive NodeKind where
  | package
  | file
  | identifier (name : String)
  | identifierExpr (name : String)
  | memberExpr (objectIdent : Option String)
  | functionParameter (key : String)
  | functionExpr (params : List String)
  | callExpr (argKeys : List String) (callee : CalleeKind)
  | variableAssignment (name : String)
  | other
  deriving DecidableEq, Repr

mutual
/-- A semantic node: kind, source location, children. -/
inductive SemTree where
  | node (kind : NodeKind) (loc : Range) (children : SemForest)

/-- The children of a semantic node. -/
inductive SemForest where
  | nil
  | cons (t : SemTree) (ts : SemForest)
end

/-- Build a forest from a list of trees (for readable literals). -/
def forest : List SemTree → SemForest
  | [] => .nil
  | t :: ts => .cons t (forest ts)

/-- Node kind accessor. -/
def SemTree.kind : SemTree → NodeKind
  | .node k _ _ => k

/-- Node location accessor. -/
def SemTree.loc : SemTree → Range
  | .node _ l _ => l

/-- Position order used for containment: before-or-at. -/
def posLe (a b : Position) : Bool :=
  decide (a.line < b.line ∨ (a.line = b.line ∧ a.character ≤ b.character))

/-- Spec §3 invariant: a node contains position P iff
`start ≤ P ≤ end`. -/
def rangeContains (r : Range) (p : Position) : Bool :=
  posLe r.start p && posLe p r.endPos

/-- `NodeFinderResult` (src/server.rs:1054-1058): the node at the
position plus the path from the root to it (the node itself included
as final element). -/
structure NodeFinderResult where
  node : Option SemTree
  path : List SemTree

mutual
/-- Modelled from the spec: `NodeFinderVisitor` records the deepest node
whose location contains the position, descending into the first child
whose range contains it, and accumulates the root-to-node path.
`find_node_go` is called on a node already known to contain the
position. -/
def find_node_go (p : Position) (path : List SemTree) :
    SemTree → NodeFinderResult
  | .node k l cs =>
    match find_node_forest p (path ++ [SemTree.node k l cs]) cs with
    | some r => r
    | none => ⟨some (.node k l cs), path ++ [SemTree.node k l cs]⟩

/-- Scan the children for the first one containing the position. -/
def find_node_forest (p : Position) (path : List SemTree) :
    SemForest → Option NodeFinderResult
  | .nil => none
  | .cons c rest =>
    if rangeContains c.loc p then some (find_node_go p path c)
    else find_node_forest p path rest
end

/-- `find_node` (src/server.rs:1060-1075): run the node-finder visitor
from the package root. -/
def find_node (t : SemTree) (p : Position) : NodeFinderResult :=
  if rangeContains t.loc p then find_node_go p [] t else ⟨none, []⟩

/-- `function_defines` (src/server.rs:75-80): does a parameter list bind
the name? -/
def function_defines (name : String) (params : List String) : Bool :=
  params.contains name

mutual
/-- Modelled from the spec: `DefinitionFinderVisitor` records the first
binding node (a variable assignment) introducing the name within the
subtree, in walk (pre-)order. -/
def def_finder_t (name : String) : SemTree → Option SemTree
  | .node k l cs =>
    match k with
    | .variableAssignment n =>
      if n == name then some (.node k l cs) else def_finder_f name cs
    | _ => def_finder_f name cs

/-- First binding in a forest. -/
def def_finder_f (name : String) : SemForest → Option SemTree
  | .nil => none
  | .cons t ts =>
    match def_finder_t name t with
    | some d => some d
    | none => def_finder_f name ts
end

/-- `is_scope` (src/server.rs:82-89): a node is a scope for the name if
a definition-finder scan of it finds a binding. -/
def is_scope (name : String) (n : SemTree) : Bool :=
  (def_finder_t name n).isSome

mutual
/-- Modelled from the spec: `IdentFinderVisitor` records every
identifier or identifier-expression whose name equals the target, in
walk order. -/
def ident_finder_t (name : String) : SemTree → List SemTree
  | .node k l cs =>
    (match k with
      | .identifier n => if n == name then [SemTree.node k l cs] else []
      | .identifierExpr n =>
        if n == name then [SemTree.node k l cs] else []
      | _ => []) ++ ident_finder_f name cs

/-- Identifier hits in a forest. -/
def ident_finder_f (name : String) : SemForest → List SemTree
  | .nil => []
  | .cons t ts => ident_finder_t name t ++ ident_finder_f name ts
end

/-- The name of an identifier or identifier-expression node (the only
node kinds `find_references` and `goto_definition` accept). -/
def identExprName (n : SemTree) : Option String :=
  match n.kind with
  | .identifier name => some name
  | .identifierExpr name => some name
  | _ => none

/-- The scope search of `find_references` (src/server.rs:102-119): walk
the ancestor path innermost-outward; take the first function expression
whose parameters bind the name, or the first package/file for which a
definition scan finds a binding. -/
def find_scope (name : String) (path : List SemTree) : Option SemTree :=
  path.reverse.find? (fun n =>
    match n.kind with
    | .functionExpr params => function_defines name params
    | .package => is_scope name n
    | .file => is_scope name n
    | _ => false)

/-- `find_references` (src/server.rs:91-136): resolve the node's
identifier name, fix the scope, then one location (with the request's
URI) per identifier hit inside the scope. -/
def find_references (uri : String) (result : NodeFinderResult) :
    List Location :=
  match result.node with
  | none => []
  | some node =>
    match identExprName node with
    | none => []
    | some name =>
      match find_scope name result.path with
      | none => []
      | some scope =>
        (ident_finder_t name scope).map (fun n => ⟨uri, n.loc⟩)

/-! ### Query handlers (src/server.rs), state-passing -/

/-- `lsp::WorkspaceEdit` restricted to the fields `rename` fills: the
per-URI changes map (a single-entry map in the source). -/
structure WorkspaceEdit where
  changes : List (String × List DocEdit)
  deriving DecidableEq, Repr

/-- `LspServer::references` (src/server.rs:898-937). The external
`parse_and_analyze` (flux crate, checks disabled) is the `analyze`
argument; analysis failure yields a null result. -/
def references (analyze : List Char → Option SemTree) (store : Store)
    (uri : String) (pos : Position) :
    Store × Except LspError (Option (List Location)) :=
  (store,
    match storeGet store uri with
    | none => .error (file_not_opened uri)
    | some contents =>
      match analyze contents with
      | none => .ok none
      | some pkg => .ok (some (find_references uri (find_node pkg pos))))

/-- `LspServer::rename` (src/server.rs:838-897): one text edit per
reference location, all with the requested new name, in a single-URI
workspace edit. -/
def rename (analyze : List Char → Option SemTree) (store : Store)
    (uri : String) (pos : Position) (new_name : List Char) :
    Store × Except LspError (Option WorkspaceEdit) :=
  (store,
    match storeGet store uri with
    | none => .error (file_not_opened uri)
    | some contents =>
      match analyze contents with
      | none => .ok none
      | some pkg =>
        let locations := find_references uri (find_node pkg pos)
        let edits := locations.map
          (fun location => DocEdit.mk location.range new_name)
        .ok (some ⟨[(uri, edits)]⟩))

/-- The ancestor loop of `goto_definition` (src/server.rs:788-834): at
each function-expression/package/file ancestor, a parameter binding the
name resolves to the queried node's own location, else a definition
scan of the ancestor resolves to the binding's location. -/
def goto_def_loop (uri : String) (node : SemTree) (node_name : String) :
    List SemTree → Option Location
  | [] => none
  | n :: rest =>
    match n.kind with
    | .functionExpr params =>
      if params.contains node_name then some ⟨uri, node.loc⟩
      else
        match def_finder_t node_name n with
        | some d => some ⟨uri, d.loc⟩
        | none => goto_def_loop uri node node_name rest
    | .package =>
      (match def_finder_t node_name n with
        | some d => some ⟨uri, d.loc⟩
        | none => goto_def_loop uri node node_name rest)
    | .file =>
      (match def_finder_t node_name n with
        | some d => some ⟨uri, d.loc⟩
        | none => goto_def_loop uri node node_name rest)
    | _ => goto_def_loop uri node node_name rest

/-- `LspServer::goto_definition` (src/server.rs:733-837). -/
def goto_definition (analyze : List Char → Option SemTree)
    (store : Store) (uri : String) (pos : Position) :
    Store × Except LspError (Option Location) :=
  (store,
    match storeGet store uri with
    | none => .error (file_not_opened uri)
    | some contents =>
      match analyze contents with
      | none => .ok none
      | some pkg =>
        let r := find_node pkg pos
        match r.node with
        | none => .ok none
        | some node =>
          match identExprName node with
          | none => .ok none
          | some node_name =>
            match goto_def_loop uri node node_name r.path.reverse with
            | some location => .ok (some location)
            | none => .ok none)

/-- One signature label, `lsp::SignatureInformation` restricted to the
label the handler fills. -/
structure SignatureInformation where
  label : String
  deriving DecidableEq, Repr

/-- `lsp::SignatureHelp`; `active_signature`/`active_parameter` are
always absent in the source and omitted. -/
structure SignatureHelp where
  signatures : List SignatureInformation
  deriving DecidableEq, Repr

/-- `LspServer::signature_help` (src/server.rs:454-532). The stdlib
signature catalog lookup `find_stdlib_signatures(name, package)` (built
from the external flux prelude/imports) is the `stdlibSigs` argument. A
member callee `pkg.fn` looks up `(fn, pkg)`, a bare identifier callee
looks up `(name, "builtin")`, anything else contributes no signatures;
the response itself is always present. -/
def signature_help (stdlibSigs : String → String → List SignatureInformation)
    (analyze : List Char → Option SemTree) (store : Store) (uri : String)
    (pos : Position) : Store × Except LspError (Option SignatureHelp) :=
  (store,
    match storeGet store uri with
    | none => .error (file_not_opened uri)
    | some contents =>
      match analyze contents with
      | none => .ok none
      | some pkg =>
        let signatures :=
          match (find_node pkg pos).node with
          | some n =>
            match n.kind with
            | .callExpr _ (.memberIdent object property) =>
              stdlibSigs property object
            | .callExpr _ (.identCallee name) => stdlibSigs name "builtin"
            | _ => []
          | none => []
        .ok (some ⟨signatures⟩))

/-- A folding range as the handler emits it (kind is always Region and
omitted). -/
structure FoldingRange where
  start_line : Nat
  start_character : Option Nat
  end_line : Nat
  end_character : Option Nat
  deriving DecidableEq, Repr

mutual
/-- Modelled from the spec: `FoldFinderVisitor` collects nodes whose
source range spans multiple lines and represent logical blocks
(multi-line function bodies, pipe chains — modelled as function and
call expressions). -/
def fold_finder_t : SemTree → List SemTree
  | .node k l cs =>
    (match k with
      | .functionExpr _ =>
        if l.start.line < l.endPos.line then [SemTree.node k l cs] else []
      | .callExpr _ _ =>
        if l.start.line < l.endPos.line then [SemTree.node k l cs] else []
      | _ => []) ++ fold_finder_f cs

/-- Fold nodes of a forest. -/
def fold_finder_f : SemForest → List SemTree
  | .nil => []
  | .cons t ts => fold_finder_t t ++ fold_finder_f ts
end

/-- `LspServer::folding_range` (src/server.rs:619-674): one folding
range per collected node, from the node's location. -/
def folding_range (analyze : List Char → Option SemTree) (store : Store)
    (uri : String) : Store × Except LspError (Option (List FoldingRange)) :=
  (store,
    match storeGet store uri with
    | none => .error (file_not_opened uri)
    | some contents =>
      match analyze contents with
      | none => .ok none
      | some pkg =>
        .ok (some ((fold_finder_t pkg).map (fun n =>
          ⟨n.loc.start.line, some n.loc.start.character,
            n.loc.endPos.line, some n.loc.endPos.character⟩))))

/-- A flat document symbol (name plus location). -/
structure SymbolInformation where
  name : String
  location : Location
  deriving DecidableEq, Repr

mutual
/-- Modelled from the spec: `SymbolsVisitor` produces a flat list of
document symbols for user-meaningful names (modelled as identifiers and
identifier expressions), in document walk order. -/
def symbols_t (uri : String) : SemTree → List SymbolInformation
  | .node k l cs =>
    (match k with
      | .identifier n => [⟨n, ⟨uri, l⟩⟩]
      | .identifierExpr n => [⟨n, ⟨uri, l⟩⟩]
      | _ => []) ++ symbols_f uri cs

/-- Symbols of a forest. -/
def symbols_f (uri : String) : SemForest → List SymbolInformation
  | .nil => []
  | .cons t ts => symbols_t uri t ++ symbols_f uri ts
end

/-- The comparison `document_symbol` sorts by (src/server.rs:718-727):
start line, then start character. -/
def symbol_le (a b : SymbolInformation) : Bool :=
  if a.location.range.start.line = b.location.range.start.line then
    a.location.range.start.character ≤ b.location.range.start.character
  else a.location.range.start.line < b.location.range.start.line

/-- Insert into a sorted list (stable insertion sort realising the
`sort_by` call). -/
def insert_symbol (x : SymbolInformation) :
    List SymbolInformation → List SymbolInformation
  | [] => [x]
  | y :: ys =>
    if symbol_le x y then x :: y :: ys else y :: insert_symbol x ys

/-- Sort symbols by (start line, start character). -/
def sort_symbols : List SymbolInformation → List SymbolInformation
  | [] => []
  | x :: xs => insert_symbol x (sort_symbols xs)

/-- `LspServer::document_symbol` (src/server.rs:675-732): the flat
symbol list sorted by (start line, start character). -/
def document_symbol (analyze : List Char → Option SemTree) (store : Store)
    (uri : String) :
    Store × Except LspError (Option (List SymbolInformation)) :=
  (store,
    match storeGet store uri with
    | none => .error (file_not_opened uri)
    | some contents =>
      match analyze contents with
      | none => .ok none
      | some pkg => .ok (some (sort_symbols (symbols_t uri pkg))))

/-- `lsp::Hover` (never actually produced: the handler always answers
null). -/
structure Hover where
  deriving DecidableEq, Repr

/-- `LspServer::hover` (src/server.rs:941-946): always `Ok(None)`; the
store is not even read. -/
def hover (store : Store) : Store × Except LspError (Option Hover) :=
  (store, .ok none)

/-- `LspServer::completion_resolve` (src/server.rs:951-956): echo the
item. -/
def completion_resolve (store : Store) (params : CompletionItem) :
    Store × Except LspError CompletionItem :=
  (store, .ok params)

/-! ### Completion dispatch and argument-value completion -/

/-- `lsp::CompletionTriggerKind`. -/
inductive CompletionTriggerKind where
  | invoked
  | triggerCharacter
  | triggerForIncompleteCompletions
  deriving DecidableEq, Repr

/-- `lsp::CompletionContext`. -/
structure CompletionContext where
  trigger_kind : CompletionTriggerKind
  trigger_character : Option String
  deriving DecidableEq, Repr

/-- The completion request data the handlers read: URI, position,
optional context. -/
structure CompletionParams where
  uri : String
  position : Position
  context : Option CompletionContext
  deriving DecidableEq, Repr

/-- `CompletionList` (protocol responses). -/
structure CompletionList where
  is_incomplete : Bool
  items : List CompletionItem
  deriving DecidableEq, Repr

/-- `lsp::CompletionResponse` (the handler always builds the List
variant). -/
inductive CompletionResponse where
  | list (l : CompletionList)
  deriving DecidableEq, Repr

/-- `LspServer::completion` (src/server.rs:958-1044): dispatch on the
trigger. `.` goes to dot completion, `:` returns an empty list (the
comment marks argument completion as future work), `(`/`,` go to
parameter completion, anything else (and absent context) to general
completion. The three completion engines live in `crate::completion`
(not under src/) and are the `find_dot`/`find_param`/`find_general`
arguments. -/
def completion
    (find_dot find_param find_general :
      CompletionParams → List Char → Except String CompletionList)
    (store : Store) (params : CompletionParams) :
    Store × Except LspError (Option CompletionResponse) :=
  (store,
    match storeGet store params.uri with
    | none => .error (file_not_opened params.uri)
    | some contents =>
      let items : Except String CompletionList :=
        match params.context with
        | some ctx =>
          match ctx.trigger_kind, ctx.trigger_character with
          | .triggerCharacter, some c =>
            if c == "." then find_dot params contents
            else if c == ":" then .ok ⟨false, []⟩
            else if c == "(" || c == "," then find_param params contents
            else find_general params contents
          | _, _ => find_general params contents
        | none => find_general params contents
      match items with
      | .ok l => .ok (some (.list l))
      | .error e =>
        .error (.invalidParams ("error getting completion items: " ++ e)))

/-- `get_ident_name` (src/handlers/completion.rs:39-84): the lexical
name context at the position — identifier name, `object.` for a member
expression over an identifier, a function parameter's key, or the key
of the call's trailing argument. `pkg` is the analysis result of the
document (`create_semantic_package`, not under src/, surfaces errors as
strings). -/
def get_ident_name (pkg : Except String SemTree) (position : Position) :
    Except String (Option String) :=
  match pkg with
  | .error e => .error e
  | .ok tree =>
    match (find_node tree position).node with
    | some n =>
      match n.kind with
      | .identifier name => .ok (some name)
      | .identifierExpr name => .ok (some name)
      | .memberExpr (some object) => .ok (some (object ++ "."))
      | .memberExpr none => .ok none
      | .functionParameter key => .ok (some key)
      | .callExpr argKeys _ => .ok argKeys.getLast?
      | _ => .ok none
    | none => .ok none

/-- `new_arg_completion` (src/handlers/completion.rs:177-193): a plain
text item whose label is the suggested value. -/
def new_arg_completion (value : String) : CompletionItem where
  deprecated := false
  commit_characters := none
  detail := none
  label := value
  additional_text_edits := none
  filter_text := none
  insert_text := none
  documentation := none
  sort_text := none
  preselect := none
  insert_text_format := .plainText
  text_edit := none
  kind := some .text

/-- `find_arg_completions` (src/handlers/completion.rs:195-220): when
the name context is `bucket`, one plain-text item per host bucket
(callback errors propagate); otherwise an empty list. -/
def find_arg_completions (pkg : Except String SemTree) (pos : Position)
    (get_buckets : Except String (List String)) :
    Except String CompletionList :=
  match get_ident_name pkg pos with
  | .error e => .error e
  | .ok name =>
    match name with
    | some n =>
      if n == "bucket" then
        match get_buckets with
        | .error e => .error e
        | .ok buckets => .ok ⟨false, buckets.map new_arg_completion⟩
      else .ok ⟨false, []⟩
    | none => .ok ⟨false, []⟩

/-- `all_completions` (src/handlers/completion.rs:222-235): a `:`
trigger goes to argument-value completion; everything else goes to the
identifier-completion engine, whose outcome is the `find_completions`
argument. -/
def all_completions (find_completions : Except String CompletionList)
    (pkg : Except String SemTree) (params : CompletionParams)
    (get_buckets : Except String (List String)) :
    Except String CompletionList :=
  match params.context with
  | some context =>
    match context.trigger_character with
    | some trigger =>
      if trigger == ":" then
        find_arg_completions pkg params.position get_buckets
      else find_completions
    | none => find_completions
  | none => find_completions

/-- The ranges of a references response (empty on error or null). -/
def locRanges : Except LspError (Option (List Location)) → List Range
  | .ok (some locations) => locations.map Location.range
  | _ => []

/-- The edits a workspace-edit response carries for a URI (empty on
error or null). -/
def editsFor : Except LspError (Option WorkspaceEdit) → String → List DocEdit
  | .ok (some w), uri =>
    (((w.changes.find? (fun c => c.1 == uri)).map Prod.snd).getD [])
  | _, _ => []

/-! ### Properties of the line/column scan -/

/-- Strict lexicographic order on (line, column) pairs. -/
def pairLt (p q : Nat × Nat) : Prop :=
  p.1 < q.1 ∨ (p.1 = q.1 ∧ p.2 < q.2)

lemma lcStep_pairLt (p : Nat × Nat) (c : Char) : pairLt p (lcStep p c) := by
  unfold lcStep pairLt
  by_cases h : c = '\n' <;> simp [h]

lemma pairLt_trans {p q t : Nat × Nat} (h1 : pairLt p q) (h2 : pairLt q t) :
    pairLt p t := by
  rcases h1 with h1 | ⟨e1, l1⟩ <;> rcases h2 with h2 | ⟨e2, l2⟩
  · exact Or.inl (h1.trans h2)
  · exact Or.inl (e2 ▸ h1)
  · exact Or.inl (e1 ▸ h2)
  · exact Or.inr ⟨e1.trans e2, l1.trans l2⟩

lemma pairLt_ne {p q : Nat × Nat} (h : pairLt p q) : p ≠ q := by
  rintro rfl
  rcases h with h | ⟨_, h⟩ <;> exact lt_irrefl _ h

lemma lineColGet_succ (s : List Char) (i : Nat) (h : i < s.length) :
    lineColGet s (i + 1) = lcStep (lineColGet s i) (s.get ⟨i, h⟩) := by
  unfold lineColGet
  rw [← List.take_concat_get s i h, List.concat_eq_append,
    List.foldl_append]
  rfl

lemma lineColGet_strict_mono (s : List Char) :
    ∀ {i j : Nat}, i < j → j ≤ s.length →
      pairLt (lineColGet s i) (lineColGet s j) := by
  intro i j
  induction j with
  | zero => intro h _; exact absurd h (Nat.not_lt_zero i)
  | succ k ih =>
    intro hij hk
    have hkL : k < s.length := Nat.lt_of_succ_le hk
    rcases Nat.lt_or_ge i k with hik | hik
    · exact pairLt_trans (ih hik (Nat.le_of_lt hkL))
        (by rw [lineColGet_succ s k hkL]; exact lcStep_pairLt _ _)
    · have : i = k := Nat.le_antisymm (Nat.lt_succ_iff.mp hij) hik
      subst this
      rw [lineColGet_succ s i hkL]
      exact lcStep_pairLt _ _

lemma lineColGet_inj (s : List Char) {i j : Nat} (hi : i ≤ s.length)
    (hj : j ≤ s.length) (h : lineColGet s i = lineColGet s j) : i = j := by
  rcases Nat.lt_trichotomy i j with hlt | heq | hgt
  · exact absurd h (pairLt_ne (lineColGet_strict_mono s hlt hj))
  · exact heq
  · exact absurd h.symm (pairLt_ne (lineColGet_strict_mono s hgt hi))

/-! ### Characterisation of the index-finding loop -/

section StringRangeSpec

variable {s : List Char} {r : Range} {a b : Nat}

lemma string_range_go_phase2 (ha : lineColGet s a = posTarget r.start)
    (hb : lineColGet s b = posTarget r.endPos) (hbL : b < s.length) :
    ∀ n i c2, a < i → i ≤ b → b - i = n →
      string_range_go s r i (s.length - i) (a, c2) = (a, b + 1) := by
  intro n
  induction n with
  | zero =>
    intro i c2 hai hib hbi
    have hib' : i = b := Nat.le_antisymm hib (Nat.le_of_sub_eq_zero hbi)
    subst hib'
    have hfuel : s.length - i = (s.length - i - 1) + 1 :=
      (Nat.succ_pred_eq_of_pos (Nat.sub_pos_of_lt hbL)).symm
    rw [hfuel]
    have hnostart : ¬ lineColGet s i = posTarget r.start := by
      intro hcontra
      have := lineColGet_inj s (Nat.le_of_lt hbL)
        (le_of_lt (lt_of_lt_of_le hai (Nat.le_of_lt hbL)))
        (hcontra.trans ha.symm)
      omega
    simp only [string_range_go]
    rw [if_neg hnostart, if_pos hb]
  | succ n ih =>
    intro i c2 hai hib hbi
    have hib' : i < b := by omega
    have hiL : i < s.length := lt_trans hib' hbL
    have hfuel : s.length - i = (s.length - (i + 1)) + 1 := by omega
    rw [hfuel]
    have hnostart : ¬ lineColGet s i = posTarget r.start := by
      intro hcontra
      have := lineColGet_inj s (Nat.le_of_lt hiL)
        (by omega : a ≤ s.length) (hcontra.trans ha.symm)
      omega
    have hnoend : ¬ lineColGet s i = posTarget r.endPos := by
      intro hcontra
      have := lineColGet_inj s (Nat.le_of_lt hiL) (Nat.le_of_lt hbL)
        (hcontra.trans hb.symm)
      omega
    simp only [string_range_go]
    rw [if_neg hnostart, if_neg hnoend]
    exact ih (i + 1) c2 (by omega) hib' (by omega)

lemma string_range_go_phase1 (ha : lineColGet s a = posTarget r.start)
    (hb : lineColGet s b = posTarget r.endPos) (hab : a ≤ b)
    (hbL : b < s.length) :
    ∀ n i acc, i ≤ a → a - i = n →
      string_range_go s r i (s.length - i) acc = (a, b + 1) := by
  intro n
  induction n with
  | zero =>
    intro i acc hia hai
    have hia' : i = a := by omega
    subst hia'
    have hiL : i < s.length := lt_of_le_of_lt hab hbL
    have hfuel : s.length - i = (s.length - (i + 1)) + 1 := by omega
    rw [hfuel]
    simp only [string_range_go]
    rw [if_pos ha]
    by_cases hie : i = b
    · subst hie
      rw [if_pos hb]
    · have hnoend : ¬ lineColGet s i = posTarget r.endPos := by
        intro hcontra
        exact hie (lineColGet_inj s (Nat.le_of_lt hiL) (Nat.le_of_lt hbL)
          (hcontra.trans hb.symm))
      rw [if_neg hnoend]
      exact string_range_go_phase2 ha hb hbL (b - (i + 1)) (i + 1) acc.2
        (by omega) (by omega) rfl
  | succ n ih =>
    intro i acc hia hai
    have hia' : i < a := by omega
    have hiL : i < s.length := by omega
    have hfuel : s.length - i = (s.length - (i + 1)) + 1 := by omega
    rw [hfuel]
    have hnostart : ¬ lineColGet s i = posTarget r.start := by
      intro hcontra
      have := lineColGet_inj s (Nat.le_of_lt hiL) (by omega : a ≤ s.length)
        (hcontra.trans ha.symm)
      omega
    have hnoend : ¬ lineColGet s i = posTarget r.endPos := by
      intro hcontra
      have := lineColGet_inj s (Nat.le_of_lt hiL) (Nat.le_of_lt hbL)
        (hcontra.trans hb.symm)
      omega
    simp only [string_range_go]
    rw [if_neg hnostart, if_neg hnoend]
    exact ih (i + 1) _ (by omega) (by omega)

/-- When the start position occurs at offset `a` and the end position at
offset `b` with `a ≤ b < |s|`, the loop computes exactly `(a, b + 1)`. -/
lemma string_range_spec (ha : lineColGet s a = posTarget r.start)
    (hb : lineColGet s b = posTarget r.endPos) (hab : a ≤ b)
    (hbL : b < s.length) : string_range s r = (a, b + 1) := by
  have := string_range_go_phase1 ha hb hab hbL a 0 (0, 0) (Nat.zero_le a)
    (Nat.sub_zero a)
  simpa [string_range] using this

/-- In the found case the replacement splices: the characters from the
start offset through the end offset (inclusive) are replaced. -/
lemma replace_string_in_range_spec (new : List Char)
    (ha : lineColGet s a = posTarget r.start)
    (hb : lineColGet s b = posTarget r.endPos) (hab : a ≤ b)
    (hbL : b < s.length) :
    replace_string_in_range s r new = s.take a ++ new ++ s.drop (b + 1) := by
  unfold replace_string_in_range
  rw [string_range_spec ha hb hab hbL]
  simp [Nat.not_lt.mpr (Nat.le_succ_of_le hab)]

end StringRangeSpec

/-! ### Store lemmas -/

lemma storeGet_storeInsert_self (s : Store) (u : String) (t : List Char) :
    storeGet (storeInsert s u t) u = some t := by
  induction s with
  | nil => simp [storeInsert, storeGet]
  | cons p rest ih =>
    obtain ⟨k, v⟩ := p
    by_cases h : k = u
    · simp [storeInsert, storeGet, h]
    · simp [storeInsert, storeGet, h, ih]

lemma storeRemove_of_absent (s : Store) (u : String)
    (h : storeGet s u = none) : storeRemove s u = s := by
  induction s with
  | nil => simp [storeRemove]
  | cons p rest ih =>
    obtain ⟨k, v⟩ := p
    by_cases hk : k = u
    · simp [storeGet, hk] at h
    · simp [storeGet, hk] at h
      simp [storeRemove, hk, ih h]

lemma did_change_eq_fold (store : Store) (uri : String)
    (changes : List ChangeEvent) (T : List Char)
    (h : storeGet store uri = some T) :
    did_change store uri changes =
      storeInsert store uri (changes.foldl apply_change T) := by
  unfold did_change
  rw [h]

lemma foldl_apply_change_full :
    ∀ (evs : List ChangeEvent) (c : List Char) (hne : evs ≠ [])
      (_ : ∀ e ∈ evs, e.range = none),
      evs.foldl apply_change c = (evs.getLast hne).text := by
  intro evs
  induction evs with
  | nil => intro c hne _; exact absurd rfl hne
  | cons e rest ih =>
    intro c hne hfull
    cases rest with
    | nil =>
      have he : e.range = none := hfull e (by simp)
      simp [List.foldl, apply_change, he, List.getLast]
    | cons f rest' =>
      have hstep : apply_change c e = e.text := by
        have he : e.range = none := hfull e (by simp)
        simp [apply_change, he]
      have := ih (apply_change c e) (by simp)
        (fun x hx => hfull x (List.mem_cons_of_mem e hx))
      simpa [List.foldl, List.getLast] using this

/-! ### Claim theorems: document store editing -/

/-- Claim C1 (didChange replay): Applying a non-empty sequence of
full-replacement events (no range) leaves the store holding exactly the
last event's text; applying a single range event whose start position
occurs at offset `a` and end position at offset `b` of the stored text
`T` (with `a ≤ b < |T|`) leaves the store holding `T` with the
characters `a…b` — the end offset inclusive — replaced by the event's
text. -/
theorem did_change_replay :
    (∀ (store : Store) (uri : String) (T : List Char)
        (events : List ChangeEvent) (hne : events ≠ []),
        (∀ e ∈ events, e.range = none) →
        storeGet store uri = some T →
        storeGet (did_change store uri events) uri =
          some ((events.getLast hne).text))
    ∧ (∀ (store : Store) (uri : String) (T : List Char) (r : Range)
        (new : List Char) (a b : Nat),
        lineColGet T a = posTarget r.start →
        lineColGet T b = posTarget r.endPos →
        a ≤ b → b < T.length →
        storeGet store uri = some T →
        storeGet (did_change store uri [⟨some r, new⟩]) uri =
          some (T.take a ++ new ++ T.drop (b + 1))) := by
  constructor
  · intro store uri T events hne hfull hget
    rw [did_change_eq_fold store uri events T hget,
      foldl_apply_change_full events T hne hfull,
      storeGet_storeInsert_self]
  · intro store uri T r new a b ha hb hab hbL hget
    rw [did_change_eq_fold store uri _ T hget]
    have : [ChangeEvent.mk (some r) new].foldl apply_change T =
        T.take a ++ new ++ T.drop (b + 1) := by
      simp [List.foldl, apply_change,
        replace_string_in_range_spec new ha hb hab hbL]
    rw [this, storeGet_storeInsert_self]

/-- Witness for C1: two full-replacement events end with the second
text; Scenario G: the range edit `[(1,3),(1,8)] → " first()"` on
`from(bucket: "bucket")\n|> last()` (start offset 26, end offset 31). -/
theorem did_change_replay_witness :
    (storeGet (did_change [("file:///f.flux", str "old")] "file:///f.flux"
        [⟨none, str "mid"⟩, ⟨none, str "fin"⟩]) "file:///f.flux" =
      some (str "fin"))
    ∧ (storeGet (did_change
        [("file:///f.flux", str "from(bucket: \"bucket\")\n|> last()")]
        "file:///f.flux"
        [⟨some ⟨⟨1, 3⟩, ⟨1, 8⟩⟩, str " first()"⟩]) "file:///f.flux" =
      some ((str "from(bucket: \"bucket\")\n|> last()").take 26 ++
        str " first()" ++
        (str "from(bucket: \"bucket\")\n|> last()").drop 32)) := by
  constructor
  · exact did_change_replay.1 [("file:///f.flux", str "old")]
      "file:///f.flux" (str "old") [⟨none, str "mid"⟩, ⟨none, str "fin"⟩]
      (by simp) (by intro e he; fin_cases he <;> rfl) (by decide)
  · exact did_change_replay.2 [("file:///f.flux", str "from(bucket: \"bucket\")\n|> last()")]
      "file:///f.flux" (str "from(bucket: \"bucket\")\n|> last()")
      ⟨⟨1, 3⟩, ⟨1, 8⟩⟩ (str " first()") 26 31 (by decide) (by decide)
      (by decide) (by decide) (by decide)

/-- Claim C4 (no-op guard): Whenever the pair computed by the
index-finding loop has its second component (the computed end offset)
below its first (the computed start offset), `replace_string_in_range`
returns the contents unchanged. -/
theorem replace_range_noop_when_end_lt_start (T : List Char) (r : Range)
    (new : List Char)
    (h : (string_range T r).2 < (string_range T r).1) :
    replace_string_in_range T r new = T := by
  unfold replace_string_in_range
  simp [h]

/-- Witness for C4: in `"abc"` the start position (0,1) occurs at offset
1 but the end position (5,0) never occurs, so the loop computes (1, 0)
and the edit is dropped. -/
theorem replace_range_noop_witness :
    (string_range (str "abc") ⟨⟨0, 1⟩, ⟨5, 0⟩⟩).2 <
      (string_range (str "abc") ⟨⟨0, 1⟩, ⟨5, 0⟩⟩).1 ∧
    replace_string_in_range (str "abc") ⟨⟨0, 1⟩, ⟨5, 0⟩⟩ (str "zz") =
      str "abc" :=
  ⟨by decide,
    replace_range_noop_when_end_lt_start (str "abc") ⟨⟨0, 1⟩, ⟨5, 0⟩⟩
      (str "zz") (by decide)⟩

/-- Claim C9 (zero-width range): A didChange range event whose start equals
its end — at a position occurring at offset `a` of the stored text —
replaces the single character at that offset with the event's text: the
character at the position is deleted, the new text is not merely
inserted in front of it. -/
theorem zero_width_range_replaces_char (store : Store) (uri : String)
    (T : List Char) (p : Position) (new : List Char) (a : Nat)
    (ha : lineColGet T a = posTarget p) (haL : a < T.length)
    (hget : storeGet store uri = some T) :
    storeGet (did_change store uri [⟨some ⟨p, p⟩, new⟩]) uri =
      some (T.take a ++ new ++ T.drop (a + 1)) := by
  rw [did_change_eq_fold store uri _ T hget]
  have : [ChangeEvent.mk (some ⟨p, p⟩) new].foldl apply_change T =
      T.take a ++ new ++ T.drop (a + 1) := by
    simp [List.foldl, apply_change,
      replace_string_in_range_spec new (r := ⟨p, p⟩) ha ha (le_refl a) haL]
  rw [this, storeGet_storeInsert_self]

/-- Witness for C9: replacing the zero-width range at position (0,1) of
`"abc"` with `"ZZ"` yields `"aZZc"` — the character `b` is gone. -/
theorem zero_width_range_witness :
    storeGet (did_change [("file:///f.flux", str "abc")] "file:///f.flux"
        [⟨some ⟨⟨0, 1⟩, ⟨0, 1⟩⟩, str "ZZ"⟩]) "file:///f.flux" =
      some ((str "abc").take 1 ++ str "ZZ" ++ (str "abc").drop 2) :=
  zero_width_range_replaces_char [("file:///f.flux", str "abc")]
    "file:///f.flux" (str "abc") ⟨0, 1⟩ (str "ZZ") 1 (by decide)
    (by decide) (by decide)

/-- Claim C5 (unknown-document idempotence): On a URI absent from the
store, didChange (any events), didSave (any optional text) and didClose
leave the store exactly as it was; the handlers return unit, so no
response or error is produced. -/
theorem unknown_uri_lifecycle_noop (store : Store) (uri : String)
    (events : List ChangeEvent) (text : Option (List Char))
    (h : storeGet store uri = none) :
    did_change store uri events = store ∧
    did_save store uri text = store ∧
    did_close store uri = store := by
  refine ⟨?_, ?_, ?_⟩
  · unfold did_change
    rw [h]
  · unfold did_save
    cases text with
    | none => rfl
    | some t => simp [h]
  · exact storeRemove_of_absent store uri h

/-- Witness for C5: a store holding only `file:///a.flux` is untouched
by lifecycle notifications for `file:///b.flux`. -/
theorem unknown_uri_lifecycle_noop_witness :
    storeGet [("file:///a.flux", str "x")] "file:///b.flux" = none ∧
    (did_change [("file:///a.flux", str "x")] "file:///b.flux"
        [⟨none, str "y"⟩] = [("file:///a.flux", str "x")] ∧
      did_save [("file:///a.flux", str "x")] "file:///b.flux"
        (some (str "z")) = [("file:///a.flux", str "x")] ∧
      did_close [("file:///a.flux", str "x")] "file:///b.flux" =
        [("file:///a.flux", str "x")]) :=
  ⟨by decide,
    unknown_uri_lifecycle_noop [("file:///a.flux", str "x")]
      "file:///b.flux" [⟨none, str "y"⟩] (some (str "z")) (by decide)⟩

/-! ### Claim theorems: formatting -/

/-- Counterexample for C3: formatting the two-character document `"ab"`
(identity formatter, no options) produces an edit ending at (0,2),
while the last character `b` of the original text sits at (0,1). -/
theorem formatting_range_counterexample :
    (formatting (fun t => .ok t) [("file:///f.flux", str "ab")]
        "file:///f.flux" ⟨none, none, none⟩).2 =
      .ok (some [⟨⟨⟨0, 0⟩, ⟨0, 2⟩⟩, str "ab"⟩]) ∧
    claim_last_char_position (str "ab") = ⟨0, 1⟩ ∧
    (⟨0, 2⟩ : Position) ≠ (⟨0, 1⟩ : Position) := by
  refine ⟨rfl, by decide, by decide⟩

/-- Claim C3 as amended: for a non-empty open document whose formatting
succeeds, the response is exactly one edit starting at (0,0) and ending
at the position one past the last character of the original text — the
0-based position of offset `len(T)` (1-based lookup minus one in each
component). -/
theorem formatting_covers_full_range
    (format : List Char → Except String (List Char)) (store : Store)
    (uri : String) (opts : FormattingOptions) (T f : List Char)
    (hT : storeGet store uri = some T) (_hne : T ≠ [])
    (hf : format T = .ok f) :
    ∃ newText, (formatting format store uri opts).2 =
      .ok (some [⟨⟨⟨0, 0⟩,
        ⟨(lineColGet T T.length).1 - 1, (lineColGet T T.length).2 - 1⟩⟩,
        newText⟩]) := by
  unfold formatting
  rw [hT]
  dsimp only
  rw [hf]
  exact ⟨_, rfl⟩

/-- Witness for the amended C3: formatting `"ab"` with the identity
formatter ends the edit at (0,2), the position of offset 2. -/
theorem formatting_covers_full_range_witness :
    storeGet [("file:///f.flux", str "ab")] "file:///f.flux" =
        some (str "ab") ∧
    str "ab" ≠ [] ∧
    (∃ newText,
      (formatting (fun t => .ok t) [("file:///f.flux", str "ab")]
          "file:///f.flux" ⟨none, none, none⟩).2 =
        .ok (some [⟨⟨⟨0, 0⟩,
          ⟨(lineColGet (str "ab") (str "ab").length).1 - 1,
            (lineColGet (str "ab") (str "ab").length).2 - 1⟩⟩,
          newText⟩])) :=
  ⟨by decide, by decide,
    formatting_covers_full_range (fun t => .ok t)
      [("file:///f.flux", str "ab")] "file:///f.flux" ⟨none, none, none⟩
      (str "ab") (str "ab") (by decide) (by decide) rfl⟩

/-! ### Claim theorems: stdlib insert text and matching -/

/-- Claim C7 (function snippet insert text): the three default shapes
hold — `fn(a: $1, b: $2, c: $3)$0` for required arguments,
`fn($1)$0` for optional-only, `fn()$0` for neither — but for a `bucket`
argument with a non-empty host bucket list the code emits a doubled
dollar, `from(bucket: $${1|b1,b2|})$0`, instead of the choice
placeholder `from(bucket: ${1|b1,b2|})$0` that the specification
describes: the `"{}: ${}"` template already carries a `$` and the choice
string supplies its own. -/
theorem function_insert_text_shapes :
    (builtin_function "fn" ["a", "b", "c"] [] "").insert_text (.ok []) =
      "fn(a: $1, b: $2, c: $3)$0" ∧
    (builtin_function "fn" [] ["x"] "").insert_text (.ok []) =
      "fn($1)$0" ∧
    (builtin_function "fn" [] [] "").insert_text (.ok []) = "fn()$0" ∧
    (builtin_function "from" ["bucket"] [] "").insert_text
        (.ok ["b1", "b2"]) =
      "from(bucket: $$\x7b1|b1,b2|\x7d)$0" ∧
    "from(bucket: $$\x7b1|b1,b2|\x7d)$0" ≠
      "from(bucket: $\x7b1|b1,b2|\x7d)$0" := by
  refine ⟨by decide, by decide, by decide, by decide, by decide⟩

/-- Claim C8 (builtin matching): a Variable or Function completable
constructed for the prelude (package `"builtin"`, no package short-name,
as `get_builtins` builds them) matches a name context, under any import
list, exactly when the context does not end in `.`. -/
theorem builtin_matches_iff_no_dot (name : String) (vt : VarType)
    (req opt : List String) (sig : String) (text : String)
    (imports : List String) :
    (builtin_var name vt).matches text imports =
        !(text.endsWith ".") ∧
    (builtin_function name req opt sig).matches text imports =
        !(text.endsWith ".") := by
  constructor
  · unfold builtin_var VarResult.matches
    cases h : text.endsWith "."
    · simp [h]
    · simp only [h]
      cases hc : contains imports "builtin" <;> simp [hc]
  · unfold builtin_function FunctionResult.matches
    cases h : text.endsWith "."
    · simp [h]
    · simp only [h]
      cases hc : contains imports "builtin" <;> simp [hc]

/-! ### Claim theorems: rename/references, completion dispatch, frame -/

/-- Claim C6 (rename ↔ references consistency): for an open document,
the ranges of the locations returned by `references` coincide (in
order, hence as sets) with the ranges of the edits the `rename`
workspace edit carries for the document's URI, and every edit's new
text is the requested new name. Both handlers analyze the same stored
text and delegate to the same `find_references`. -/
theorem rename_references_consistency
    (analyze : List Char → Option SemTree) (store : Store) (uri : String)
    (pos : Position) (new_name : List Char) (T : List Char)
    (hT : storeGet store uri = some T) :
    locRanges (references analyze store uri pos).2 =
      (editsFor (rename analyze store uri pos new_name).2 uri).map
        DocEdit.range ∧
    ∀ e ∈ editsFor (rename analyze store uri pos new_name).2 uri,
      e.new_text = new_name := by
  unfold references rename
  dsimp only
  rw [hT]
  dsimp only
  cases hA : analyze T with
  | none =>
    constructor
    · rfl
    · intro e he
      simp [editsFor] at he
  | some pkg =>
    constructor
    · simp [locRanges, editsFor, List.map_map]
    · intro e he
      simp [editsFor, List.mem_map] at he
      obtain ⟨l, _, rfl⟩ := he
      rfl

/-- Witness for C6 on a Scenario-E-like document: `env = "x"` bound on
line 0 and used on line 2; references and rename agree on the two
ranges. -/
theorem rename_references_consistency_witness :
    storeGet [("file:///f.flux", str "env = \"x\"\n\nenv")]
        "file:///f.flux" = some (str "env = \"x\"\n\nenv") ∧
    (locRanges
        (references
          (fun _ => some
            (.node .package ⟨⟨0, 0⟩, ⟨2, 10⟩⟩ (forest
      [.node .file ⟨⟨0, 0⟩, ⟨2, 10⟩⟩ (forest
        [.node (.variableAssignment "env") ⟨⟨0, 0⟩, ⟨0, 9⟩⟩ (forest
          [.node (.identifier "env") ⟨⟨0, 0⟩, ⟨0, 3⟩⟩ (forest []),
            .node .other ⟨⟨0, 6⟩, ⟨0, 9⟩⟩ (forest [])]),
          .node (.identifierExpr "env") ⟨⟨2, 0⟩, ⟨2, 3⟩⟩
            (forest [])])])))
          [("file:///f.flux", str "env = \"x\"\n\nenv")]
          "file:///f.flux" ⟨0, 1⟩).2 =
      (editsFor
          (rename
            (fun _ => some
              (.node .package ⟨⟨0, 0⟩, ⟨2, 10⟩⟩ (forest
      [.node .file ⟨⟨0, 0⟩, ⟨2, 10⟩⟩ (forest
        [.node (.variableAssignment "env") ⟨⟨0, 0⟩, ⟨0, 9⟩⟩ (forest
          [.node (.identifier "env") ⟨⟨0, 0⟩, ⟨0, 3⟩⟩ (forest []),
            .node .other ⟨⟨0, 6⟩, ⟨0, 9⟩⟩ (forest [])]),
          .node (.identifierExpr "env") ⟨⟨2, 0⟩, ⟨2, 3⟩⟩
            (forest [])])])))
            [("file:///f.flux", str "env = \"x\"\n\nenv")]
            "file:///f.flux" ⟨0, 1⟩ (str "environment")).2
          "file:///f.flux").map DocEdit.range ∧
      ∀ e ∈ editsFor
          (rename
            (fun _ => some
              (.node .package ⟨⟨0, 0⟩, ⟨2, 10⟩⟩ (forest
      [.node .file ⟨⟨0, 0⟩, ⟨2, 10⟩⟩ (forest
        [.node (.variableAssignment "env") ⟨⟨0, 0⟩, ⟨0, 9⟩⟩ (forest
          [.node (.identifier "env") ⟨⟨0, 0⟩, ⟨0, 3⟩⟩ (forest []),
            .node .other ⟨⟨0, 6⟩, ⟨0, 9⟩⟩ (forest [])]),
          .node (.identifierExpr "env") ⟨⟨2, 0⟩, ⟨2, 3⟩⟩
            (forest [])])])))
            [("file:///f.flux", str "env = \"x\"\n\nenv")]
            "file:///f.flux" ⟨0, 1⟩ (str "environment")).2
          "file:///f.flux",
        e.new_text = str "environment") :=
  ⟨rfl,
    rename_references_consistency _
      [("file:///f.flux", str "env = \"x\"\n\nenv")] "file:///f.flux"
      ⟨0, 1⟩ (str "environment") (str "env = \"x\"\n\nenv") rfl⟩

/-- Counterexample for C2: a `:`-triggered request through
`LspServer::completion` where the name context at the position is
`bucket` (as the repository's own `get_ident_name` computes) and the
host has one bucket `mybucket` still yields the empty list — not one
item per bucket. The handler-module path (`find_arg_completions`) does
produce the item, as the claim describes. -/
theorem colon_trigger_counterexample :
    get_ident_name
      (.ok (.node .package ⟨⟨0, 0⟩, ⟨0, 12⟩⟩ (forest
        [.node .file ⟨⟨0, 0⟩, ⟨0, 12⟩⟩ (forest
          [.node (.callExpr ["bucket"] (.identCallee "from"))
            ⟨⟨0, 0⟩, ⟨0, 12⟩⟩ (forest [])])])))
      ⟨0, 12⟩ = .ok (some "bucket") ∧
    find_arg_completions
      (.ok (.node .package ⟨⟨0, 0⟩, ⟨0, 12⟩⟩ (forest
        [.node .file ⟨⟨0, 0⟩, ⟨0, 12⟩⟩ (forest
          [.node (.callExpr ["bucket"] (.identCallee "from"))
            ⟨⟨0, 0⟩, ⟨0, 12⟩⟩ (forest [])])])))
      ⟨0, 12⟩ (.ok ["mybucket"]) =
      .ok ⟨false, [new_arg_completion "mybucket"]⟩ ∧
    (completion (fun _ _ => .ok ⟨false, []⟩) (fun _ _ => .ok ⟨false, []⟩)
        (fun _ _ => .ok ⟨false, []⟩)
        [("file:///f.flux", str "from(bucket:")]
        ⟨"file:///f.flux", ⟨0, 12⟩,
          some ⟨.triggerCharacter, some ":"⟩⟩).2 =
      .ok (some (.list ⟨false, []⟩)) ∧
    CompletionList.mk false [] ≠
      CompletionList.mk false [new_arg_completion "mybucket"] := by
  refine ⟨rfl, rfl, rfl, by decide⟩

/-- Claim C2 as amended: the handler-module path behaves as claimed — a
`:`-triggered request goes to `find_arg_completions`, which returns one
plain-text item per host bucket when the preceding argument name is
`bucket` and an empty list for any other (or absent) name — while the
`LspServer::completion` path returns an empty list for every
`:`-triggered request regardless of the argument name. -/
theorem colon_trigger_completion
    : (∀ (pkg : Except String SemTree) (pos : Position)
        (buckets : List String) (name : Option String),
        get_ident_name pkg pos = .ok name →
        find_arg_completions pkg pos (.ok buckets) =
          .ok ⟨false, if name = some "bucket"
            then buckets.map new_arg_completion else []⟩)
    ∧ (∀ (fc : Except String CompletionList)
        (pkg : Except String SemTree) (params : CompletionParams)
        (gb : Except String (List String)) (ctx : CompletionContext),
        params.context = some ctx →
        ctx.trigger_character = some ":" →
        all_completions fc pkg params gb =
          find_arg_completions pkg params.position gb)
    ∧ (∀ (fd fp fg :
          CompletionParams → List Char → Except String CompletionList)
        (store : Store) (params : CompletionParams) (T : List Char)
        (ctx : CompletionContext),
        storeGet store params.uri = some T →
        params.context = some ctx →
        ctx.trigger_kind = .triggerCharacter →
        ctx.trigger_character = some ":" →
        (completion fd fp fg store params).2 =
          .ok (some (.list ⟨false, []⟩))) := by
  refine ⟨?_, ?_, ?_⟩
  · intro pkg pos buckets name h
    unfold find_arg_completions
    rw [h]
    cases name with
    | none => simp
    | some n =>
      by_cases hn : n = "bucket"
      · subst hn
        simp
      · simp [hn]
  · intro fc pkg params gb ctx hctx htc
    unfold all_completions
    simp [hctx, htc]
  · intro fd fp fg store params T ctx hT hctx hk htc
    unfold completion
    simp [hT, hctx, hk, htc]

/-- Witness for the amended C2, at the counterexample's inputs: the
handler path produces the bucket item, the dispatch routes `:` to it,
and the server path returns the empty list. -/
theorem colon_trigger_completion_witness :
    (get_ident_name
        (.ok (.node .package ⟨⟨0, 0⟩, ⟨0, 12⟩⟩ (forest
          [.node .file ⟨⟨0, 0⟩, ⟨0, 12⟩⟩ (forest
            [.node (.callExpr ["bucket"] (.identCallee "from"))
              ⟨⟨0, 0⟩, ⟨0, 12⟩⟩ (forest [])])])))
        ⟨0, 12⟩ = .ok (some "bucket") ∧
      find_arg_completions
        (.ok (.node .package ⟨⟨0, 0⟩, ⟨0, 12⟩⟩ (forest
          [.node .file ⟨⟨0, 0⟩, ⟨0, 12⟩⟩ (forest
            [.node (.callExpr ["bucket"] (.identCallee "from"))
              ⟨⟨0, 0⟩, ⟨0, 12⟩⟩ (forest [])])])))
        ⟨0, 12⟩ (.ok ["mybucket"]) =
        .ok ⟨false, if (some "bucket" : Option String) = some "bucket"
          then ["mybucket"].map new_arg_completion else []⟩) ∧
    all_completions (.ok ⟨true, []⟩)
      (.ok (.node .package ⟨⟨0, 0⟩, ⟨0, 12⟩⟩ (forest [])))
      ⟨"file:///f.flux", ⟨0, 12⟩, some ⟨.invoked, some ":"⟩⟩
      (.ok ["mybucket"]) =
      find_arg_completions
        (.ok (.node .package ⟨⟨0, 0⟩, ⟨0, 12⟩⟩ (forest [])))
        ⟨0, 12⟩ (.ok ["mybucket"]) ∧
    (completion (fun _ _ => .ok ⟨false, []⟩) (fun _ _ => .ok ⟨false, []⟩)
        (fun _ _ => .ok ⟨false, []⟩) [("file:///u.flux", str "x")]
        ⟨"file:///u.flux", ⟨0, 0⟩,
          some ⟨.triggerCharacter, some ":"⟩⟩).2 =
      .ok (some (.list ⟨false, []⟩)) :=
  ⟨⟨rfl, colon_trigger_completion.1 _ _ ["mybucket"] (some "bucket") rfl⟩,
    colon_trigger_completion.2.1 (.ok ⟨true, []⟩) _ _ (.ok ["mybucket"])
      ⟨.invoked, some ":"⟩ rfl rfl,
    colon_trigger_completion.2.2 _ _ _ [("file:///u.flux", str "x")]
      ⟨"file:///u.flux", ⟨0, 0⟩, some ⟨.triggerCharacter, some ":"⟩⟩
      (str "x") ⟨.triggerCharacter, some ":"⟩ rfl rfl rfl rfl⟩

/-- Claim C10 (query requests leave the store unchanged): every query
handler — references, rename, formatting, foldingRange, documentSymbol,
definition, signatureHelp, hover, completionItem/resolve, completion —
returns the store it was given, for all inputs; only the four lifecycle
notifications (didOpen/didChange/didSave/didClose) ever produce a
different store. -/
theorem query_requests_preserve_store :
    (∀ (analyze : List Char → Option SemTree) (store : Store)
      (uri : String) (pos : Position),
      (references analyze store uri pos).1 = store)
    ∧ (∀ (analyze : List Char → Option SemTree) (store : Store)
      (uri : String) (pos : Position) (nn : List Char),
      (rename analyze store uri pos nn).1 = store)
    ∧ (∀ (format : List Char → Except String (List Char)) (store : Store)
      (uri : String) (opts : FormattingOptions),
      (formatting format store uri opts).1 = store)
    ∧ (∀ (analyze : List Char → Option SemTree) (store : Store)
      (uri : String), (folding_range analyze store uri).1 = store)
    ∧ (∀ (analyze : List Char → Option SemTree) (store : Store)
      (uri : String), (document_symbol analyze store uri).1 = store)
    ∧ (∀ (analyze : List Char → Option SemTree) (store : Store)
      (uri : String) (pos : Position),
      (goto_definition analyze store uri pos).1 = store)
    ∧ (∀ (sigs : String → String → List SignatureInformation)
      (analyze : List Char → Option SemTree) (store : Store)
      (uri : String) (pos : Position),
      (signature_help sigs analyze store uri pos).1 = store)
    ∧ (∀ (store : Store), (hover store).1 = store)
    ∧ (∀ (store : Store) (item : CompletionItem),
      (completion_resolve store item).1 = store)
    ∧ (∀ (fd fp fg :
        CompletionParams → List Char → Except String CompletionList)
      (store : Store) (params : CompletionParams),
      (completion fd fp fg store params).1 = store) :=
  ⟨fun _ _ _ _ => rfl, fun _ _ _ _ _ => rfl, fun _ _ _ _ => rfl,
    fun _ _ _ => rfl, fun _ _ _ => rfl, fun _ _ _ _ => rfl,
    fun _ _ _ _ _ => rfl, fun _ => rfl, fun _ _ => rfl,
    fun _ _ _ _ _ => rfl⟩
